import Mathlib

/-!
Verification development for the mdreg model-driven registration package
(sources: `src/mdreg/main.py` and `src/mdreg/models/constant.py`).

Modelling conventions.
* numpy floating point values are idealised as rationals; a value that can be
  NaN is an `Option ℚ`, with `none` playing the role of NaN, and the
  NaN-propagating arithmetic is explicit (`nanSq`, `nanAdd`, `nanSub`).
* `np.sqrt` is the real square root, so norms live in `ℝ` (`Option ℝ` where a
  NaN can occur); `np.nanmax` keeps the non-NaN entries and yields `none`
  when there are none, mirroring the NaN returned on an all-NaN input.
* an array is a total function from indices together with its shape data; the
  deformation-delta input of `_maxnorm` is a `DeformArr` with shape
  (pixels, spatial components, time points).
* `np.empty` produces storage with arbitrary content; this is the `junk`
  parameter, universally quantified wherever a claim depends on it.
* the `while` loop of `MDReg.fit` is modelled with explicit fuel equal to
  `max_iterations`; exhausting the fuel (`none`) corresponds to a run that
  the loop guard never stopped, which the termination theorem rules out for
  positive `max_iterations`.
-/

/-- Image stack in the flat (pixels, time) working layout of `MDReg.fit`. -/
abbrev Stack := ℕ → ℕ → ℚ

/-- One time frame of a deformation field: (pixel, spatial component). -/
abbrev DFrame := ℕ → ℕ → Option ℚ

/-- NaN-propagating square of a float. -/
def nanSq (v : Option ℚ) : Option ℚ := v.map fun x => x * x

/-- NaN-propagating addition of two floats. -/
def nanAdd (a b : Option ℚ) : Option ℚ :=
  match a, b with
  | some x, some y => some (x + y)
  | _, _ => none

/-- NaN-propagating subtraction of two floats. -/
def nanSub (a b : Option ℚ) : Option ℚ :=
  match a, b with
  | some x, some y => some (x - y)
  | _, _ => none

/-- A (pixels, spatial-dims, time) array, the input type of `_maxnorm`. -/
structure DeformArr where
  P : ℕ
  N : ℕ
  T : ℕ
  entry : ℕ → ℕ → ℕ → Option ℚ

/-- The per pixel and time point sum of squared components computed by
`_maxnorm` (main.py:370-373): the three-component sum exactly when the second
axis has length 3, the two-component sum otherwise. -/
def sumSq (d : DeformArr) (p t : ℕ) : Option ℚ :=
  if d.N = 3 then
    nanAdd (nanAdd (nanSq (d.entry p 0 t)) (nanSq (d.entry p 1 t))) (nanSq (d.entry p 2 t))
  else
    nanAdd (nanSq (d.entry p 0 t)) (nanSq (d.entry p 1 t))

/-- All (pixel, time) index pairs of a (P, dims, T) array. -/
def indexList (P T : ℕ) : List (ℕ × ℕ) :=
  (List.range P).flatMap fun p => (List.range T).map fun t => (p, t)

/-- `np.nanmax`: maximum of the non-NaN entries, NaN (`none`) if all entries
are NaN. -/
noncomputable def nanmax (l : List (Option ℝ)) : Option ℝ :=
  match l.filterMap id with
  | [] => none
  | x :: xs => some (xs.foldl max x)

/-- `_maxnorm` (main.py:361-375): elementwise sum of squared components,
then `np.nanmax (np.sqrt ...)` over all pixels and time points. -/
noncomputable def _maxnorm (d : DeformArr) : Option ℝ :=
  nanmax ((indexList d.P d.T).map fun pt =>
    (sumSq d pt.1 pt.2).map fun q : ℚ => Real.sqrt (q : ℝ))

/-- Spec-side formulation of the squared Euclidean norm across the
spatial-dims axis: sum of squares over the `d.N` components, accumulated
along the component axis (spec section 4.3). -/
def specSumSq (d : DeformArr) (p t : ℕ) : Option ℚ :=
  (List.range d.N).foldl (fun acc c => nanAdd acc (nanSq (d.entry p c t))) (some 0)

/-! ### The iteration loop of `MDReg.fit` (main.py:106-128)

The loop is modelled generically over the state type and the type of the
improvement diagnostic: `step` performs one iteration body (signal fit,
registration, diagnostic), `conv` is the test `improvement[-1] <= precision`,
and the counter `i` starts at 1 exactly as `self.iteration` does. -/

/-- Result of the iteration loop: final state, improvement history
(one entry per completed iteration), and the iteration counter at exit. -/
structure LoopOut (σ V : Type) where
  state : σ
  improvements : List V
  iterations : ℕ

/-- One unfolding of `while not converged` (main.py:109-128): run the body,
append the diagnostic, stop when `conv` holds or `i = maxIter`, else continue
with `i + 1`.  The fuel argument makes the recursion structural; `none` means
the fuel ran out before the guard stopped the loop. -/
def fitLoopAux {σ V : Type} (step : σ → σ × V) (conv : V → Bool) (maxIter : ℕ) :
    ℕ → ℕ → σ → List V → Option (LoopOut σ V)
  | 0, _, _, _ => none
  | fuel + 1, i, s, hist =>
    let r := step s
    let hist2 := hist ++ [r.2]
    if conv r.2 || decide (i = maxIter) then some ⟨r.1, hist2, i⟩
    else fitLoopAux step conv maxIter fuel (i + 1) r.1 hist2

/-- The loop of `MDReg.fit`, entered with `self.iteration = 1`, an empty
improvement history, and fuel `maxIter`. -/
def fitLoop {σ V : Type} (step : σ → σ × V) (conv : V → Bool) (maxIter : ℕ) (s0 : σ) :
    Option (LoopOut σ V) :=
  fitLoopAux step conv maxIter maxIter 1 s0 []

/-! ### Frame dispatch: `MDReg.fit_deformation` (main.py:155-262) -/

/-- Output of one per-frame registration call: the warped column written to
`self.coreg[:,t]` and the frame written to `deformation[...,t]`. -/
structure RegResult where
  coregCol : ℕ → ℚ
  deform : DFrame

/-- A stored validity mask: its numpy shape and its (flat pixel, time) data. -/
structure MaskArr where
  shape : List ℕ
  data : ℕ → ℕ → ℚ

/-- A registration backend: moving image, fixed image, optional mask frame to
a warped column and a deformation frame; `none` models a raised exception. -/
abbrev Backend := (ℕ → ℚ) → (ℕ → ℚ) → Option (ℕ → ℚ) → Option RegResult

/-- Mask policy of `fit_deformation` (main.py:171-179): if the stored mask
does not have the same shape as `self.array`, do not use it. -/
def maskSelect (coreg_mask : Option MaskArr) (array_shape : List ℕ) : Option MaskArr :=
  match coreg_mask with
  | none => none
  | some m => if m.shape ≠ array_shape then none else some m

/-- The `mask_t` argument handed to the registration call for frame `t`
(main.py:187-190). -/
def maskArg (coreg_mask : Option MaskArr) (array_shape : List ℕ) (t : ℕ) : Option (ℕ → ℚ) :=
  (maskSelect coreg_mask array_shape).map fun m p => m.data p t

/-- The registration call for frame `t`: moving image `self.array[...,t]`,
fixed image `self.model_fit[...,t]`, mask `mask_t` (main.py:192-206). -/
def regCall (register : Backend) (arr modelFit : Stack)
    (coreg_mask : Option MaskArr) (array_shape : List ℕ) (t : ℕ) : Option RegResult :=
  register (fun p => arr p t) (fun p => modelFit p t) (maskArg coreg_mask array_shape t)

/-- Sequential dispatch (main.py:181-224), elastix path: the loop over `t`
writes `self.coreg[:,t]` and `deformation[...,t]` from the call's result; a
raised per-frame error is swallowed (`except: pass`, main.py:203-206), which
leaves the coregistered column at its previous value and the deformation
frame at the arbitrary content `junk t` of the `np.empty` allocation
(main.py:163). -/
def fit_deformation_seq (register : Backend) (arr modelFit : Stack)
    (coreg_mask : Option MaskArr) (array_shape : List ℕ)
    (junk : ℕ → DFrame) (prevCoreg : Stack) (T : ℕ) :
    Stack × (ℕ → DFrame) :=
  (fun p t =>
      if t < T then
        match regCall register arr modelFit coreg_mask array_shape t with
        | some r => r.coregCol p
        | none => prevCoreg p t
      else prevCoreg p t,
   fun t =>
      if t < T then
        match regCall register arr modelFit coreg_mask array_shape t with
        | some r => r.deform
        | none => junk t
      else junk t)

/-- `pool.map` gathering: the worker outputs, tagged with their original time
index in the completion order `sched`, are looked up by time index `t`. -/
def poolGather (completed : List (ℕ × Option RegResult)) (t : ℕ) : Option RegResult :=
  (completed.lookup t).join

/-- Parallel dispatch (main.py:226-255): the argument list is built in time
order, the workers finish in the arbitrary order `sched`, and the gather loop
(main.py:253-255) merges `results[t]` back at index `t`.  A raised worker
error propagates (`none`): the parallel elastix path has no `try`/`except`. -/
def fit_deformation_par (register : Backend) (arr modelFit : Stack)
    (coreg_mask : Option MaskArr) (array_shape : List ℕ)
    (junk : ℕ → DFrame) (prevCoreg : Stack) (T : ℕ) (sched : List ℕ) :
    Option (Stack × (ℕ → DFrame)) :=
  let completed := sched.map fun t => (t, regCall register arr modelFit coreg_mask array_shape t)
  if (List.range T).all (fun t => (poolGather completed t).isSome) then
    some
      (fun p t =>
        if t < T then ((poolGather completed t).map fun r => r.coregCol p).getD (prevCoreg p t)
        else prevCoreg p t,
       fun t =>
        if t < T then ((poolGather completed t).map RegResult.deform).getD (junk t)
        else junk t)
  else none

/-! ### Shapes, `set_mask`, and the constant signal model -/

/-- `MDReg._npdt` (main.py:65-71): (pixel count, spatial dimension count,
time point count) derived from the array shape. -/
def _npdt (shape : List ℕ) : ℕ × ℕ × ℕ :=
  (shape.dropLast.prod, shape.length - 1, shape.getLastD 0)

/-- The shape `set_mask` (main.py:88-91) stores the mask under:
`np.reshape(mask, (n[0], n[2]))`, the flat (pixels, time) layout. -/
def set_mask_shape (array_shape : List ℕ) : List ℕ :=
  [(_npdt array_shape).1, (_npdt array_shape).2.2]

/-- `models/constant.py` `main`: per-pixel mean over the time axis, repeated
over all time points, with the mean as the single fitted parameter. -/
def constant_main (T : ℕ) (images : Stack) : Stack × Stack :=
  let avr : ℕ → ℚ := fun p => (∑ t ∈ Finset.range T, images p t) / (T : ℚ)
  (fun p _ => avr p, fun p _ => avr p)

/-! ### The `MDReg.fit` orchestrator (main.py:100-138) -/

/-- The configuration a `fit` run depends on: array shape data, the original
array (flat layout), the injected signal model, the registration backend, the
stored mask, the arbitrary content of each iteration's `np.empty` deformation
allocation, and the convergence parameters. -/
structure MDRCfg where
  P : ℕ
  N : ℕ
  T : ℕ
  array_shape : List ℕ
  arr : Stack
  signal : Stack → Stack × Stack
  register : Backend
  coreg_mask : Option MaskArr
  junk : ℕ → DFrame
  precision : ℝ
  max_iterations : ℕ

/-- The mutable state of the loop body: `self.coreg`, `self.deformation`
(flat (pixel, component, time) layout), `self.model_fit`, `self.pars`. -/
structure MDRState where
  coreg : Stack
  deformation : ℕ → ℕ → ℕ → Option ℚ
  modelFit : Stack
  pars : Stack

/-- Python `improvement[-1] <= self.precision` (main.py:120): a NaN
diagnostic compares as `False`. -/
noncomputable def nanLe (v : Option ℝ) (p : ℝ) : Bool :=
  match v with
  | none => false
  | some x => decide (x ≤ p)

/-- The convergence test of the loop guard. -/
noncomputable def mdrConv (precision : ℝ) (v : Option ℝ) : Bool := nanLe v precision

/-- One iteration body of `MDReg.fit` (main.py:111-119): fit the signal model
on the current coregistered stack, register every frame of the original array
to the fresh model fit, reshape the new deformation field, and compute
`_maxnorm(self.deformation - deformation)`. -/
noncomputable def mdrStep (cfg : MDRCfg) (s : MDRState) : MDRState × Option ℝ :=
  let fp := cfg.signal s.coreg
  let cd := fit_deformation_seq cfg.register cfg.arr fp.1 cfg.coreg_mask cfg.array_shape
    cfg.junk s.coreg cfg.T
  let newDef : ℕ → ℕ → ℕ → Option ℚ := fun p c t => cd.2 t p c
  let improvement := _maxnorm
    ⟨cfg.P, cfg.N, cfg.T, fun p c t => nanSub (s.deformation p c t) (newDef p c t)⟩
  (⟨cd.1, newDef, fp.1, fp.2⟩, improvement)

/-- State before the first iteration (main.py:102-104): coregistered stack is
a copy of the original array, deformation field all zero; model fit and
parameters are not yet computed (they are overwritten before first use). -/
def mdrInit (cfg : MDRCfg) : MDRState :=
  ⟨cfg.arr, fun _ _ _ => some 0, fun _ _ => 0, fun _ _ => 0⟩

/-- The outputs of `MDReg.fit`: `self.coreg`, `self.deformation`,
`self.model_fit`, `self.pars`, and `self.iter` (the improvement history with
its length). -/
structure MDROut where
  coreg : Stack
  deformation : ℕ → ℕ → ℕ → Option ℚ
  modelFit : Stack
  pars : Stack
  improvements : List (Option ℝ)
  iterations : ℕ

/-- `MDReg.fit` (main.py:100-138): run the loop, then perform one more
`fit_signal` pass on the converged coregistered stack (main.py:130) before
reshaping the outputs and building the iteration log (main.py:131-135). -/
noncomputable def MDR_fit (cfg : MDRCfg) : Option MDROut :=
  match fitLoop (mdrStep cfg) (mdrConv cfg.precision) cfg.max_iterations (mdrInit cfg) with
  | none => none
  | some out =>
    let fp := cfg.signal out.state.coreg
    some ⟨out.state.coreg, out.state.deformation, fp.1, fp.2, out.improvements, out.iterations⟩

/-! ### Downsampled elastix registration: spacing and origin arithmetic
(`_coregister_elastix`, main.py:495-513) -/

/-- `spacing_small = [spacing_large[1]*downsample, spacing_large[0]*downsample]`
(main.py:503), with list index 0 as the first pair component. -/
def spacingSmall (spacing_large : ℚ × ℚ) (downsample : ℕ) : ℚ × ℚ :=
  (spacing_large.2 * downsample, spacing_large.1 * downsample)

/-- `origin_small = [(spacing_small[1] - spacing_large[1])/2,
(spacing_small[0] - spacing_large[0])/2]` (main.py:505), the origin assigned
to both downsampled images (main.py:512-513). -/
def originSmall (spacing_large : ℚ × ℚ) (downsample : ℕ) : ℚ × ℚ :=
  (((spacingSmall spacing_large downsample).2 - spacing_large.2) / 2,
   ((spacingSmall spacing_large downsample).1 - spacing_large.1) / 2)

/-! ### Concrete instances for witnesses and counterexamples -/

/-- An identity registration backend stub: returns the moving image unchanged
and an all-zero deformation frame. -/
def idRegister : Backend := fun moving _ _ => some ⟨moving, fun _ _ => some 0⟩

/-- A backend stub whose every call raises (too many samples outside the
image buffer), exercising the `except: pass` path of main.py:203-206. -/
def failRegister : Backend := fun _ _ _ => none

/-- The all-zero image stack. -/
def zeroStack : Stack := fun _ _ => 0

/-- A trivial signal model stub: the fit is the input stack itself. -/
def idSignal : Stack → Stack × Stack := fun c => (c, c)

/-- `np.empty` content that happens to be all zero. -/
def zeroJunk : ℕ → DFrame := fun _ _ _ => some 0

/-- `np.empty` content that happens to be all NaN. -/
def noneJunk : ℕ → DFrame := fun _ _ _ => none

/-- `np.empty` content with components 3 and 4 everywhere. -/
def bigJunk : ℕ → DFrame := fun _ _ c => if c = 0 then some 3 else some 4

/-- Configuration of the end-to-end scenario of claim C7: a 2-D stack of
shape (16,16,5), the constant signal model, the identity registration stub,
the default precision 1.0 and the default five maximum iterations. -/
def cfg7 (arr : Stack) (junk : ℕ → DFrame) : MDRCfg :=
  ⟨256, 2, 5, [16, 16, 5], arr, constant_main 5, idRegister, none, junk, 1, 5⟩

/-- A minimal run in which every per-frame registration call raises, with the
`np.empty` deformation allocation holding `junk`. -/
def cfgFail (junk : ℕ → DFrame) : MDRCfg :=
  ⟨1, 2, 1, [1, 1, 1], zeroStack, idSignal, failRegister, none, junk, 0, 1⟩

/-- A minimal healthy run used to instantiate the loop theorems. -/
def cfgSmall : MDRCfg :=
  ⟨1, 2, 1, [1, 1, 1], zeroStack, idSignal, idRegister, none, zeroJunk, 1, 1⟩

/-- A second minimal healthy run (witness of the final-refit claim). -/
def cfgSmall4 : MDRCfg :=
  ⟨1, 2, 1, [1, 1, 1], zeroStack, idSignal, idRegister, none, zeroJunk, 1, 2⟩

/-- A third minimal healthy run (witness of the populated-field claim). -/
def cfgSmall5 : MDRCfg :=
  ⟨1, 2, 1, [1, 1, 1], zeroStack, idSignal, idRegister, none, zeroJunk, 1, 1⟩

/-- A run used by the mask-mismatch witness. -/
def cfgSmall8 : MDRCfg :=
  ⟨1, 2, 1, [1, 1, 1], zeroStack, idSignal, idRegister, none, zeroJunk, 1, 1⟩

/-- A mask whose shape does not match the image stack of `cfgSmall8`. -/
def maskW8 : MaskArr := ⟨[9], fun _ _ => 1⟩

/-- A run over a (16,16,5) stack used by the `set_mask` witness. -/
def cfgSmall10 : MDRCfg :=
  ⟨256, 2, 5, [16, 16, 5], zeroStack, idSignal, idRegister, none, zeroJunk, 1, 1⟩

/-- A two-component all-zero deformation delta (witness input). -/
def dZero2 : DeformArr := ⟨1, 2, 1, fun _ _ _ => some 0⟩

/-- A three-component all-zero deformation delta (witness input). -/
def dZero3 : DeformArr := ⟨2, 3, 1, fun _ _ _ => some 0⟩

/-- A two-component all-NaN deformation delta (witness input). -/
def dNaN2 : DeformArr := ⟨1, 2, 1, fun _ _ _ => none⟩

/-- A deterministic total backend used by the dispatch-equivalence witness. -/
def regW3 : Backend := fun moving _ _ => some ⟨moving, fun _ _ => some 1⟩

/-- Two loop states agree on everything the convergence diagnostic can see:
equal coregistered stacks, model fits and parameters, and equal deformation
entries at every real time point `t < T` (beyond `T` only the arbitrary
`np.empty` content differs). -/
abbrev deformEqBelow (T : ℕ) (s₁ s₂ : MDRState) : Prop :=
  s₁.coreg = s₂.coreg ∧ s₁.modelFit = s₂.modelFit ∧ s₁.pars = s₂.pars ∧
  ∀ p c t, t < T → s₁.deformation p c t = s₂.deformation p c t

/-! ## Lemmas about `_maxnorm` -/

lemma nanAdd_zero_left (a : Option ℚ) : nanAdd (some 0) a = a := by
  cases a <;> simp [nanAdd]

lemma specSumSq_eq_sumSq (d : DeformArr) (hN : d.N = 2 ∨ d.N = 3) (p t : ℕ) :
    specSumSq d p t = sumSq d p t := by
  rcases hN with h | h <;>
    simp [specSumSq, sumSq, h, List.range_succ, nanAdd_zero_left]

lemma mem_indexList {P T : ℕ} {pt : ℕ × ℕ} :
    pt ∈ indexList P T ↔ pt.1 < P ∧ pt.2 < T := by
  rcases pt with ⟨p, t⟩
  constructor
  · intro h
    rcases List.mem_flatMap.mp h with ⟨a, ha, hmap⟩
    rcases List.mem_map.mp hmap with ⟨b, hb, heq⟩
    rcases Prod.mk.injEq .. ▸ heq with ⟨h1, h2⟩
    exact ⟨h1 ▸ List.mem_range.mp ha, h2 ▸ List.mem_range.mp hb⟩
  · rintro ⟨h1, h2⟩
    exact List.mem_flatMap.mpr ⟨p, List.mem_range.mpr h1,
      List.mem_map.mpr ⟨t, List.mem_range.mpr h2, rfl⟩⟩

lemma foldl_max_eq_or_mem {α : Type} [LinearOrder α] (xs : List α) :
    ∀ x : α, xs.foldl max x = x ∨ xs.foldl max x ∈ xs := by
  induction xs with
  | nil => intro x; exact Or.inl rfl
  | cons a l ih =>
    intro x
    rcases ih (max x a) with h | h
    · rcases max_choice x a with h2 | h2
      · exact Or.inl (by rw [List.foldl_cons, h, h2])
      · exact Or.inr (by rw [List.foldl_cons, h, h2]; exact List.mem_cons_self a l)
    · exact Or.inr (List.mem_cons_of_mem a h)

lemma le_foldl_max_init {α : Type} [LinearOrder α] (xs : List α) :
    ∀ x : α, x ≤ xs.foldl max x := by
  induction xs with
  | nil => intro x; exact le_refl x
  | cons a l ih =>
    intro x
    rw [List.foldl_cons]
    exact le_trans (le_max_left x a) (ih (max x a))

lemma le_foldl_max_of_mem {α : Type} [LinearOrder α] (xs : List α) :
    ∀ x y : α, y ∈ xs → y ≤ xs.foldl max x := by
  induction xs with
  | nil => intro x y h; cases h
  | cons a l ih =>
    intro x y h
    rw [List.foldl_cons]
    rcases List.mem_cons.mp h with rfl | h2
    · exact le_trans (le_max_right x y) (le_foldl_max_init l (max x y))
    · exact ih (max x a) y h2

lemma nanmax_spec (l : List (Option ℝ)) (h : l.filterMap id ≠ []) :
    ∃ r, nanmax l = some r ∧ r ∈ l.filterMap id ∧ ∀ x ∈ l.filterMap id, x ≤ r := by
  cases hfm : l.filterMap id with
  | nil => exact absurd hfm h
  | cons x xs =>
    refine ⟨xs.foldl max x, ?_, ?_, ?_⟩
    · simp only [nanmax, hfm]
    · rcases foldl_max_eq_or_mem xs x with h2 | h2
      · rw [h2]; exact List.mem_cons_self x xs
      · exact List.mem_cons_of_mem x h2
    · intro y hy
      rcases List.mem_cons.mp hy with rfl | hy2
      · exact le_foldl_max_init xs y
      · exact le_foldl_max_of_mem xs x y hy2

lemma maxnorm_const (d : DeformArr) (a : ℚ) (hP : 0 < d.P) (hT : 0 < d.T)
    (h : ∀ p < d.P, ∀ t < d.T, sumSq d p t = some a) :
    _maxnorm d = some (Real.sqrt (a : ℝ)) := by
  set l := (indexList d.P d.T).map
      (fun pt => (sumSq d pt.1 pt.2).map fun q : ℚ => Real.sqrt (q : ℝ)) with hl
  have hmem : ∀ x ∈ l, x = some (Real.sqrt (a : ℝ)) := by
    intro x hx
    rcases List.mem_map.mp hx with ⟨pt, hpt, rfl⟩
    rcases mem_indexList.mp hpt with ⟨h1, h2⟩
    simp [h pt.1 h1 pt.2 h2]
  have h00 : some (Real.sqrt (a : ℝ)) ∈ l := by
    have hin : ((0, 0) : ℕ × ℕ) ∈ indexList d.P d.T := mem_indexList.mpr ⟨hP, hT⟩
    rw [hl]
    exact List.mem_map.mpr ⟨(0, 0), hin, by rw [h 0 hP 0 hT]; rfl⟩
  have hfne : l.filterMap id ≠ [] :=
    List.ne_nil_of_mem (List.mem_filterMap.mpr ⟨some (Real.sqrt (a : ℝ)), h00, rfl⟩)
  rcases nanmax_spec l hfne with ⟨r, hr, hrmem, _⟩
  have hreq : r = Real.sqrt (a : ℝ) := by
    rcases List.mem_filterMap.mp hrmem with ⟨o, ho, hido⟩
    rw [hmem o ho] at hido
    exact (Option.some_inj.mp hido).symm
  show nanmax l = some (Real.sqrt (a : ℝ))
  rw [hr, hreq]

lemma maxnorm_allnan (d : DeformArr)
    (h : ∀ p < d.P, ∀ t < d.T, sumSq d p t = none) :
    _maxnorm d = none := by
  set l := (indexList d.P d.T).map
      (fun pt => (sumSq d pt.1 pt.2).map fun q : ℚ => Real.sqrt (q : ℝ)) with hl
  have hfm : l.filterMap id = [] := by
    rw [List.filterMap_eq_nil_iff]
    intro o ho
    rcases List.mem_map.mp ho with ⟨pt, hpt, rfl⟩
    rcases mem_indexList.mp hpt with ⟨h1, h2⟩
    simp [h pt.1 h1 pt.2 h2]
  show nanmax l = none
  simp only [nanmax, hfm]

lemma maxnorm_congr (d₁ d₂ : DeformArr) (hP : d₁.P = d₂.P) (hT : d₁.T = d₂.T)
    (h : ∀ p < d₂.P, ∀ t < d₂.T, sumSq d₁ p t = sumSq d₂ p t) :
    _maxnorm d₁ = _maxnorm d₂ := by
  unfold _maxnorm
  rw [hP, hT]
  congr 1
  apply List.map_congr_left
  intro pt hpt
  rcases mem_indexList.mp hpt with ⟨h1, h2⟩
  rw [h pt.1 h1 pt.2 h2]

/-! ## Lemmas about the iteration loop -/

lemma fitLoopAux_run {σ V : Type} (step : σ → σ × V) (conv : V → Bool) (maxIter : ℕ) :
    ∀ (fuel i : ℕ) (s : σ) (hist : List V),
      i + fuel = maxIter + 1 → 0 < fuel →
      ∃ (out : LoopOut σ V) (mid : List V) (v : V),
        fitLoopAux step conv maxIter fuel i s hist = some out ∧
        i ≤ out.iterations ∧ out.iterations ≤ maxIter ∧
        out.improvements.length + i = hist.length + out.iterations + 1 ∧
        out.improvements = hist ++ mid ++ [v] ∧
        (∀ u ∈ mid, conv u = false) ∧
        (conv v = true ∨ out.iterations = maxIter) := by
  intro fuel
  induction fuel with
  | zero => intro i s hist _ h0; exact absurd h0 (lt_irrefl 0)
  | succ f ih =>
    intro i s hist hsum _
    have hile : i ≤ maxIter := by omega
    cases hc : conv (step s).2 || decide (i = maxIter) with
    | true =>
      refine ⟨⟨(step s).1, hist ++ [(step s).2], i⟩, [], (step s).2, ?_, le_refl i, hile,
        ?_, by simp, ?_, ?_⟩
      · simp [fitLoopAux, hc]
      · simp only [List.length_append, List.length_singleton]
        omega
      · intro u hu; cases hu
      · have hc2 := hc
        simp only [Bool.or_eq_true, decide_eq_true_eq] at hc2
        rcases hc2 with h | h
        · exact Or.inl h
        · exact Or.inr h
    | false =>
      have hc2 := hc
      simp only [Bool.or_eq_false_iff, decide_eq_false_iff_not] at hc2
      obtain ⟨hcv, hne⟩ := hc2
      have hflt : 0 < f := by omega
      rcases ih (i + 1) (step s).1 (hist ++ [(step s).2]) (by omega) hflt with
        ⟨out, mid, v, heq, hi, hle, hlen, himp, hmid, hlast⟩
      refine ⟨out, (step s).2 :: mid, v, ?_, by omega, hle, ?_, ?_, ?_, hlast⟩
      · simpa [fitLoopAux, hc] using heq
      · simp only [List.length_append, List.length_singleton] at hlen ⊢
        omega
      · rw [himp]; simp
      · intro u hu
        rcases List.mem_cons.mp hu with rfl | hu2
        · exact hcv
        · exact hmid u hu2

lemma fitLoop_run {σ V : Type} (step : σ → σ × V) (conv : V → Bool) (maxIter : ℕ)
    (s0 : σ) (hmax : 0 < maxIter) :
    ∃ (out : LoopOut σ V) (mid : List V) (v : V),
      fitLoop step conv maxIter s0 = some out ∧
      1 ≤ out.iterations ∧ out.iterations ≤ maxIter ∧
      out.improvements.length = out.iterations ∧
      out.improvements = mid ++ [v] ∧
      (∀ u ∈ mid, conv u = false) ∧
      (conv v = true ∨ out.iterations = maxIter) := by
  rcases fitLoopAux_run step conv maxIter maxIter 1 s0 [] (by omega) hmax with
    ⟨out, mid, v, heq, hi, hle, hlen, himp, hmid, hlast⟩
  exact ⟨out, mid, v, heq, hi, hle, by simpa using hlen, by simpa using himp, hmid, hlast⟩

lemma fitLoop_exit_first {σ V : Type} (step : σ → σ × V) (conv : V → Bool) (maxIter : ℕ)
    (s0 : σ) (hmax : 0 < maxIter)
    (h : (conv (step s0).2 || decide (1 = maxIter)) = true) :
    fitLoop step conv maxIter s0 = some ⟨(step s0).1, [(step s0).2], 1⟩ := by
  obtain ⟨m, rfl⟩ : ∃ m, maxIter = m + 1 := ⟨maxIter - 1, by omega⟩
  simp only [fitLoop, fitLoopAux, h, if_true, List.nil_append]

lemma fitLoopAux_rel {σ V : Type} (R : σ → σ → Prop)
    (step₁ step₂ : σ → σ × V) (conv : V → Bool) (maxIter : ℕ)
    (hstep : ∀ s₁ s₂, R s₁ s₂ → R (step₁ s₁).1 (step₂ s₂).1 ∧ (step₁ s₁).2 = (step₂ s₂).2) :
    ∀ (fuel i : ℕ) (s₁ s₂ : σ) (hist : List V), R s₁ s₂ →
      (fitLoopAux step₁ conv maxIter fuel i s₁ hist = none ∧
       fitLoopAux step₂ conv maxIter fuel i s₂ hist = none) ∨
      (∃ o₁ o₂, fitLoopAux step₁ conv maxIter fuel i s₁ hist = some o₁ ∧
        fitLoopAux step₂ conv maxIter fuel i s₂ hist = some o₂ ∧
        R o₁.state o₂.state ∧ o₁.improvements = o₂.improvements ∧
        o₁.iterations = o₂.iterations) := by
  intro fuel
  induction fuel with
  | zero => intro i s₁ s₂ hist _; exact Or.inl ⟨rfl, rfl⟩
  | succ f ih =>
    intro i s₁ s₂ hist hR
    obtain ⟨hR2, hv⟩ := hstep s₁ s₂ hR
    cases hc : conv (step₁ s₁).2 || decide (i = maxIter) with
    | true =>
      have hcB : (conv (step₂ s₂).2 || decide (i = maxIter)) = true := by
        rw [← hv]; exact hc
      refine Or.inr ⟨⟨(step₁ s₁).1, hist ++ [(step₁ s₁).2], i⟩,
        ⟨(step₂ s₂).1, hist ++ [(step₂ s₂).2], i⟩, ?_, ?_, hR2, by rw [hv], rfl⟩
      · simp [fitLoopAux, hc]
      · simp [fitLoopAux, hcB]
    | false =>
      have hc2 : (conv (step₂ s₂).2 || decide (i = maxIter)) = false := by
        rw [← hv]; exact hc
      have hrec := ih (i + 1) (step₁ s₁).1 (step₂ s₂).1 (hist ++ [(step₁ s₁).2]) hR2
      rcases hrec with ⟨h1, h2⟩ | ⟨o₁, o₂, h1, h2, h3, h4, h5⟩
      · left
        constructor
        · simpa [fitLoopAux, hc] using h1
        · rw [hv] at h2
          simpa [fitLoopAux, hc2] using h2
      · right
        refine ⟨o₁, o₂, ?_, ?_, h3, h4, h5⟩
        · simpa [fitLoopAux, hc] using h1
        · rw [hv] at h2
          simpa [fitLoopAux, hc2] using h2

/-! ## Lemmas about frame dispatch and the mask policy -/

lemma lookup_map_self {β : Type} (f : ℕ → β) :
    ∀ (l : List ℕ), l.Nodup → ∀ t ∈ l, (l.map fun x => (x, f x)).lookup t = some (f t) := by
  intro l
  induction l with
  | nil => intro _ t ht; cases ht
  | cons a l ih =>
    intro hnd t ht
    rcases List.mem_cons.mp ht with rfl | ht2
    · simp [List.lookup]
    · have hta : (t == a) = false := by
        have : t ≠ a := fun h => (List.nodup_cons.mp hnd).1 (h ▸ ht2)
        simp [this]
      simp only [List.map_cons, List.lookup, hta]
      exact ih (List.nodup_cons.mp hnd).2 t ht2

lemma par_eq_seq (register : Backend) (arr modelFit : Stack)
    (coreg_mask : Option MaskArr) (array_shape : List ℕ)
    (junk : ℕ → DFrame) (prevCoreg : Stack) (T : ℕ) (sched : List ℕ)
    (hperm : sched.Perm (List.range T))
    (htot : ∀ t, t < T →
      (regCall register arr modelFit coreg_mask array_shape t).isSome = true) :
    fit_deformation_par register arr modelFit coreg_mask array_shape junk prevCoreg T sched =
      some (fit_deformation_seq register arr modelFit coreg_mask array_shape junk prevCoreg T) := by
  have hnd : sched.Nodup := hperm.nodup_iff.mpr (List.nodup_range T)
  have hgather : ∀ t, t < T →
      poolGather (sched.map fun u => (u, regCall register arr modelFit coreg_mask array_shape u)) t
        = regCall register arr modelFit coreg_mask array_shape t := by
    intro t ht
    have hmem : t ∈ sched := hperm.mem_iff.mpr (List.mem_range.mpr ht)
    unfold poolGather
    rw [lookup_map_self _ sched hnd t hmem]
    rfl
  have hall : ((List.range T).all fun t =>
      (poolGather (sched.map fun u =>
        (u, regCall register arr modelFit coreg_mask array_shape u)) t).isSome) = true := by
    rw [List.all_eq_true]
    intro t ht
    rw [hgather t (List.mem_range.mp ht)]
    exact htot t (List.mem_range.mp ht)
  unfold fit_deformation_par
  simp only [hall, if_true]
  unfold fit_deformation_seq
  refine congrArg some (Prod.ext ?_ ?_)
  · funext p t
    by_cases ht : t < T
    · rcases Option.isSome_iff_exists.mp (htot t ht) with ⟨r, hr⟩
      simp [ht, hgather t ht, hr]
    · simp [ht]
  · funext t
    by_cases ht : t < T
    · rcases Option.isSome_iff_exists.mp (htot t ht) with ⟨r, hr⟩
      simp [ht, hgather t ht, hr]
    · simp [ht]

lemma fit_deformation_seq_mask_mismatch (register : Backend) (arr modelFit : Stack)
    (m : MaskArr) (array_shape : List ℕ) (junk : ℕ → DFrame) (prevCoreg : Stack) (T : ℕ)
    (hm : m.shape ≠ array_shape) :
    fit_deformation_seq register arr modelFit (some m) array_shape junk prevCoreg T =
      fit_deformation_seq register arr modelFit none array_shape junk prevCoreg T := by
  have hmask : maskArg (some m) array_shape = maskArg none array_shape := by
    funext t
    simp [maskArg, maskSelect, hm]
  unfold fit_deformation_seq regCall
  rw [hmask]

/-! ## Lemmas about `MDR_fit` -/

lemma MDR_fit_run (cfg : MDRCfg) (hmax : 0 < cfg.max_iterations) :
    ∃ (out : MDROut) (mid : List (Option ℝ)) (v : Option ℝ),
      MDR_fit cfg = some out ∧
      1 ≤ out.iterations ∧ out.iterations ≤ cfg.max_iterations ∧
      out.improvements.length = out.iterations ∧
      out.improvements = mid ++ [v] ∧
      (∀ u ∈ mid, nanLe u cfg.precision = false) ∧
      (nanLe v cfg.precision = true ∨ out.iterations = cfg.max_iterations) ∧
      out.modelFit = (cfg.signal out.coreg).1 ∧
      out.pars = (cfg.signal out.coreg).2 := by
  rcases fitLoop_run (mdrStep cfg) (mdrConv cfg.precision) cfg.max_iterations (mdrInit cfg)
      hmax with ⟨lo, mid, v, heq, h1, h2, h3, h4, h5, h6⟩
  refine ⟨⟨lo.state.coreg, lo.state.deformation, (cfg.signal lo.state.coreg).1,
    (cfg.signal lo.state.coreg).2, lo.improvements, lo.iterations⟩, mid, v, ?_,
    h1, h2, h3, h4, h5, h6, rfl, rfl⟩
  unfold MDR_fit
  rw [heq]

lemma mdrStep_mask_mismatch (cfg : MDRCfg) (m : MaskArr) (hm : m.shape ≠ cfg.array_shape) :
    mdrStep { cfg with coreg_mask := some m } = mdrStep { cfg with coreg_mask := none } := by
  funext s
  simp only [mdrStep]
  rw [fit_deformation_seq_mask_mismatch cfg.register cfg.arr
    (cfg.signal s.coreg).1 m cfg.array_shape cfg.junk s.coreg cfg.T hm]

lemma MDR_fit_mask_mismatch (cfg : MDRCfg) (m : MaskArr) (hm : m.shape ≠ cfg.array_shape) :
    MDR_fit { cfg with coreg_mask := some m } = MDR_fit { cfg with coreg_mask := none } := by
  unfold MDR_fit
  rw [mdrStep_mask_mismatch cfg m hm]
  rfl

lemma maskArg_mismatch (m : MaskArr) (array_shape : List ℕ) (hm : m.shape ≠ array_shape) :
    ∀ t, maskArg (some m) array_shape t = none := by
  intro t
  simp [maskArg, maskSelect, hm]

lemma set_mask_shape_ne (shape : List ℕ)
    (h : 2 ≤ ((shape.dropLast).filter fun a => 1 < a).length) :
    set_mask_shape shape ≠ shape := by
  intro he
  have hlen := congrArg List.length he
  simp only [set_mask_shape, List.length_cons, List.length_nil] at hlen
  have h2 : 2 ≤ (shape.dropLast).length :=
    le_trans h (List.length_filter_le _ _)
  rw [List.length_dropLast] at h2
  omega

lemma mdrStep_eq (cfg : MDRCfg) (s : MDRState) :
    mdrStep cfg s =
      (⟨(fit_deformation_seq cfg.register cfg.arr (cfg.signal s.coreg).1 cfg.coreg_mask
          cfg.array_shape cfg.junk s.coreg cfg.T).1,
        fun p c t => (fit_deformation_seq cfg.register cfg.arr (cfg.signal s.coreg).1
          cfg.coreg_mask cfg.array_shape cfg.junk s.coreg cfg.T).2 t p c,
        (cfg.signal s.coreg).1, (cfg.signal s.coreg).2⟩,
       _maxnorm ⟨cfg.P, cfg.N, cfg.T, fun p c t =>
         nanSub (s.deformation p c t)
           ((fit_deformation_seq cfg.register cfg.arr (cfg.signal s.coreg).1
             cfg.coreg_mask cfg.array_shape cfg.junk s.coreg cfg.T).2 t p c)⟩) := rfl

lemma mdrStep_snd (cfg : MDRCfg) (s : MDRState) :
    (mdrStep cfg s).2 = _maxnorm ⟨cfg.P, cfg.N, cfg.T, fun p c t =>
      nanSub (s.deformation p c t)
        ((fit_deformation_seq cfg.register cfg.arr (cfg.signal s.coreg).1
          cfg.coreg_mask cfg.array_shape cfg.junk s.coreg cfg.T).2 t p c)⟩ := rfl

lemma mdrStep_coreg (cfg : MDRCfg) (s : MDRState) :
    (mdrStep cfg s).1.coreg =
      (fit_deformation_seq cfg.register cfg.arr (cfg.signal s.coreg).1
        cfg.coreg_mask cfg.array_shape cfg.junk s.coreg cfg.T).1 := rfl

lemma mdrStep_deformation (cfg : MDRCfg) (s : MDRState) :
    (mdrStep cfg s).1.deformation = fun p c t =>
      (fit_deformation_seq cfg.register cfg.arr (cfg.signal s.coreg).1
        cfg.coreg_mask cfg.array_shape cfg.junk s.coreg cfg.T).2 t p c := rfl

lemma fit_deformation_seq_fst (register : Backend) (arr modelFit : Stack)
    (coreg_mask : Option MaskArr) (array_shape : List ℕ)
    (junk : ℕ → DFrame) (prevCoreg : Stack) (T : ℕ) (p t : ℕ) :
    (fit_deformation_seq register arr modelFit coreg_mask array_shape junk prevCoreg T).1 p t =
      if t < T then
        match regCall register arr modelFit coreg_mask array_shape t with
        | some r => r.coregCol p
        | none => prevCoreg p t
      else prevCoreg p t := rfl

lemma fit_deformation_seq_snd (register : Backend) (arr modelFit : Stack)
    (coreg_mask : Option MaskArr) (array_shape : List ℕ)
    (junk : ℕ → DFrame) (prevCoreg : Stack) (T : ℕ) (t : ℕ) :
    (fit_deformation_seq register arr modelFit coreg_mask array_shape junk prevCoreg T).2 t =
      if t < T then
        match regCall register arr modelFit coreg_mask array_shape t with
        | some r => r.deform
        | none => junk t
      else junk t := rfl

/-! ## The claims -/

/-- C1: for every positive `max_iterations`, `MDReg.fit` terminates; the loop
stops as soon as the improvement diagnostic is at most `precision` or the
iteration counter equals `max_iterations`, whichever first, so it runs at
most `max_iterations` iterations, runs exactly `max_iterations` iterations
when the precision threshold is never met, and the improvement history has
exactly one entry per completed iteration. -/
theorem claim_C1_fit_terminates (cfg : MDRCfg) (hmax : 0 < cfg.max_iterations) :
    ∃ out, MDR_fit cfg = some out ∧
      1 ≤ out.iterations ∧ out.iterations ≤ cfg.max_iterations ∧
      out.improvements.length = out.iterations ∧
      (∀ u ∈ out.improvements.dropLast, nanLe u cfg.precision = false) ∧
      (∃ v, out.improvements.getLast? = some v ∧
        (nanLe v cfg.precision = true ∨ out.iterations = cfg.max_iterations)) ∧
      ((∀ u ∈ out.improvements, nanLe u cfg.precision = false) →
        out.iterations = cfg.max_iterations) := by
  rcases MDR_fit_run cfg hmax with ⟨out, mid, v, heq, h1, h2, h3, h4, h5, h6, _, _⟩
  refine ⟨out, heq, h1, h2, h3, ?_, ⟨v, ?_, h6⟩, ?_⟩
  · rw [h4, List.dropLast_concat]
    exact h5
  · rw [h4]
    exact List.getLast?_concat _
  · intro hall
    rcases h6 with hc | hc
    · have hvmem : v ∈ out.improvements := by
        rw [h4]
        exact List.mem_append_right _ (List.mem_singleton.mpr rfl)
      rw [hall v hvmem] at hc
      cases hc
    · exact hc

/-- C1 witness: the termination theorem applied to a concrete one-iteration
configuration. -/
theorem claim_C1_fit_terminates_witness :
    0 < cfgSmall.max_iterations ∧
    (∃ out, MDR_fit cfgSmall = some out ∧
      1 ≤ out.iterations ∧ out.iterations ≤ cfgSmall.max_iterations ∧
      out.improvements.length = out.iterations ∧
      (∀ u ∈ out.improvements.dropLast, nanLe u cfgSmall.precision = false) ∧
      (∃ v, out.improvements.getLast? = some v ∧
        (nanLe v cfgSmall.precision = true ∨ out.iterations = cfgSmall.max_iterations)) ∧
      ((∀ u ∈ out.improvements, nanLe u cfgSmall.precision = false) →
        out.iterations = cfgSmall.max_iterations)) :=
  ⟨by decide, claim_C1_fit_terminates cfgSmall (by decide)⟩

/-- C4: after the iteration loop exits, one more signal-model fit pass is run
on the converged coregistered stack, so the returned model fit and parameters
equal the signal model applied to the final coregistered stack. -/
theorem claim_C4_final_refit (cfg : MDRCfg) (hmax : 0 < cfg.max_iterations) :
    ∃ out, MDR_fit cfg = some out ∧
      out.modelFit = (cfg.signal out.coreg).1 ∧
      out.pars = (cfg.signal out.coreg).2 := by
  rcases MDR_fit_run cfg hmax with ⟨out, _, _, heq, _, _, _, _, _, _, h7, h8⟩
  exact ⟨out, heq, h7, h8⟩

/-- C4 witness: the final-refit theorem applied to a concrete two-iteration
configuration. -/
theorem claim_C4_final_refit_witness :
    0 < cfgSmall4.max_iterations ∧
    (∃ out, MDR_fit cfgSmall4 = some out ∧
      out.modelFit = (cfgSmall4.signal out.coreg).1 ∧
      out.pars = (cfgSmall4.signal out.coreg).2) :=
  ⟨by decide, claim_C4_final_refit cfgSmall4 (by decide)⟩

/-- C2: for a (pixels, spatial-dims, time) array with 2 or 3 spatial
components, `_maxnorm` returns the maximum over all pixels and time points of
the Euclidean norm of the displacement vector — the square root of the sum of
squares over the spatial-dims components, three of them exactly when the
second axis has length 3 — with NaN entries excluded from the maximum rather
than treated as zero or as a failure. -/
theorem claim_C2_maxnorm_is_max_norm (d : DeformArr) (hN : d.N = 2 ∨ d.N = 3)
    (hvalid : ∃ p < d.P, ∃ t < d.T, specSumSq d p t ≠ none) :
    ∃ r : ℝ, _maxnorm d = some r ∧
      (∃ p < d.P, ∃ t < d.T, ∃ q : ℚ, specSumSq d p t = some q ∧ r = Real.sqrt (q : ℝ)) ∧
      (∀ p < d.P, ∀ t < d.T, ∀ q : ℚ, specSumSq d p t = some q → Real.sqrt (q : ℝ) ≤ r) := by
  have hspec : ∀ p t, specSumSq d p t = sumSq d p t := specSumSq_eq_sumSq d hN
  set l := (indexList d.P d.T).map
      (fun pt => (sumSq d pt.1 pt.2).map fun q : ℚ => Real.sqrt (q : ℝ)) with hl
  obtain ⟨p0, hp0, t0, ht0, hv0⟩ := hvalid
  rw [hspec] at hv0
  obtain ⟨q0, hq0⟩ := Option.ne_none_iff_exists'.mp hv0
  have h00 : some (Real.sqrt (q0 : ℝ)) ∈ l := by
    rw [hl]
    exact List.mem_map.mpr ⟨(p0, t0), mem_indexList.mpr ⟨hp0, ht0⟩, by rw [hq0]; rfl⟩
  have hfne : l.filterMap id ≠ [] :=
    List.ne_nil_of_mem (List.mem_filterMap.mpr ⟨some (Real.sqrt (q0 : ℝ)), h00, rfl⟩)
  rcases nanmax_spec l hfne with ⟨r, hr, hrmem, hrub⟩
  refine ⟨r, hr, ?_, ?_⟩
  · rcases List.mem_filterMap.mp hrmem with ⟨o, ho, hido⟩
    have ho2 : o = some r := hido
    rw [hl] at ho
    rcases List.mem_map.mp ho with ⟨pt, hpt, hmapeq⟩
    rcases mem_indexList.mp hpt with ⟨hp, ht⟩
    rw [ho2] at hmapeq
    obtain ⟨q, hq, hrq⟩ : ∃ a : ℚ, sumSq d pt.1 pt.2 = some a ∧ Real.sqrt (a : ℝ) = r :=
      Option.map_eq_some'.mp hmapeq
    exact ⟨pt.1, hp, pt.2, ht, q, by rw [hspec]; exact hq, hrq.symm⟩
  · intro p hp t ht q hq
    rw [hspec] at hq
    have hmem : some (Real.sqrt (q : ℝ)) ∈ l := by
      rw [hl]
      exact List.mem_map.mpr ⟨(p, t), mem_indexList.mpr ⟨hp, ht⟩, by rw [hq]; rfl⟩
    exact hrub _ (List.mem_filterMap.mpr ⟨some (Real.sqrt (q : ℝ)), hmem, rfl⟩)

/-- C2 witness: the maximum-norm theorem applied to a concrete all-zero
three-component array. -/
theorem claim_C2_maxnorm_is_max_norm_witness :
    (dZero3.N = 2 ∨ dZero3.N = 3) ∧
    (∃ p < dZero3.P, ∃ t < dZero3.T, specSumSq dZero3 p t ≠ none) ∧
    (∃ r : ℝ, _maxnorm dZero3 = some r ∧
      (∃ p < dZero3.P, ∃ t < dZero3.T, ∃ q : ℚ,
        specSumSq dZero3 p t = some q ∧ r = Real.sqrt (q : ℝ)) ∧
      (∀ p < dZero3.P, ∀ t < dZero3.T, ∀ q : ℚ,
        specSumSq dZero3 p t = some q → Real.sqrt (q : ℝ) ≤ r)) := by
  have hval : ∃ p < dZero3.P, ∃ t < dZero3.T, specSumSq dZero3 p t ≠ none :=
    ⟨0, by decide, 0, by decide,
      by simp [specSumSq, dZero3, nanAdd, nanSq, List.range_succ]⟩
  exact ⟨Or.inr rfl, hval, claim_C2_maxnorm_is_max_norm dZero3 (Or.inr rfl) hval⟩

/-- C6: `_maxnorm` of an all-zero deformation delta is exactly 0; on an
all-NaN input it does not raise and returns the NaN result (`none`), which is
distinct from the zero-deformation result `some 0`. -/
theorem claim_C6_zero_vs_allnan (d0 dn : DeformArr)
    (hN0 : d0.N = 2 ∨ d0.N = 3) (hP0 : 0 < d0.P) (hT0 : 0 < d0.T)
    (hz : ∀ p c t, d0.entry p c t = some 0)
    (hnan : ∀ p c t, dn.entry p c t = none) :
    _maxnorm d0 = some 0 ∧ _maxnorm dn = none ∧ (none : Option ℝ) ≠ some 0 := by
  refine ⟨?_, ?_, by simp⟩
  · have h0 : ∀ p < d0.P, ∀ t < d0.T, sumSq d0 p t = some 0 := by
      intro p _ t _
      rcases hN0 with h | h <;> simp [sumSq, h, hz, nanSq, nanAdd]
    have := maxnorm_const d0 0 hP0 hT0 h0
    simpa using this
  · apply maxnorm_allnan
    intro p _ t _
    by_cases h3 : dn.N = 3 <;> simp [sumSq, h3, hnan, nanSq, nanAdd]

/-- C6 witness: the theorem applied to the concrete all-zero and all-NaN
two-component arrays. -/
theorem claim_C6_zero_vs_allnan_witness :
    _maxnorm dZero2 = some 0 ∧ _maxnorm dNaN2 = none ∧ (none : Option ℝ) ≠ some 0 :=
  claim_C6_zero_vs_allnan dZero2 dNaN2 (Or.inl rfl) (by decide) (by decide)
    (fun _ _ _ => rfl) (fun _ _ _ => rfl)

/-- C3: with a deterministic backend that succeeds on every frame, the
parallel dispatch of `fit_deformation` — whatever order the workers complete
in — produces exactly the sequential result: every frame's warped column and
deformation frame is merged back at its original time index. -/
theorem claim_C3_parallel_eq_sequential (register : Backend) (arr modelFit : Stack)
    (coreg_mask : Option MaskArr) (array_shape : List ℕ)
    (junk : ℕ → DFrame) (prevCoreg : Stack) (T : ℕ) (sched : List ℕ)
    (hperm : sched.Perm (List.range T))
    (htot : ∀ t, t < T →
      (regCall register arr modelFit coreg_mask array_shape t).isSome = true) :
    fit_deformation_par register arr modelFit coreg_mask array_shape junk prevCoreg T sched =
      some (fit_deformation_seq register arr modelFit coreg_mask array_shape junk prevCoreg T) :=
  par_eq_seq register arr modelFit coreg_mask array_shape junk prevCoreg T sched hperm htot

/-- C3 witness: the dispatch-equivalence theorem at two frames with the
workers finishing in reversed order. -/
theorem claim_C3_parallel_eq_sequential_witness :
    [1, 0].Perm (List.range 2) ∧
    (∀ t, t < 2 →
      (regCall regW3 zeroStack zeroStack none [1, 1, 2] t).isSome = true) ∧
    fit_deformation_par regW3 zeroStack zeroStack none [1, 1, 2] zeroJunk zeroStack 2 [1, 0] =
      some (fit_deformation_seq regW3 zeroStack zeroStack none [1, 1, 2] zeroJunk zeroStack 2) :=
  ⟨by decide, fun _ _ => rfl,
    claim_C3_parallel_eq_sequential regW3 zeroStack zeroStack none [1, 1, 2] zeroJunk
      zeroStack 2 [1, 0] (by decide) (fun _ _ => rfl)⟩

/-- C8: a validity mask whose shape does not equal the image stack's shape is
treated as absent: every registration call receives mask `None`, and `fit`
behaves exactly as if no mask had been supplied — never a fatal error. -/
theorem claim_C8_mismatched_mask_is_absent (cfg : MDRCfg) (m : MaskArr)
    (hm : m.shape ≠ cfg.array_shape) :
    (∀ t, maskArg (some m) cfg.array_shape t = none) ∧
    MDR_fit { cfg with coreg_mask := some m } = MDR_fit { cfg with coreg_mask := none } :=
  ⟨maskArg_mismatch m cfg.array_shape hm, MDR_fit_mask_mismatch cfg m hm⟩

/-- C8 witness: the mask-mismatch theorem at a concrete configuration with a
wrong-shaped mask. -/
theorem claim_C8_mismatched_mask_is_absent_witness :
    maskW8.shape ≠ cfgSmall8.array_shape ∧
    ((∀ t, maskArg (some maskW8) cfgSmall8.array_shape t = none) ∧
      MDR_fit { cfgSmall8 with coreg_mask := some maskW8 } =
        MDR_fit { cfgSmall8 with coreg_mask := none }) :=
  ⟨by decide, claim_C8_mismatched_mask_is_absent cfgSmall8 maskW8 (by decide)⟩

/-- C10: for a stack whose spatial layout has at least two axes longer
than 1, a mask stored by `set_mask` — reshaped to the flat (pixels, time)
layout — never matches the stack's shape, so every registration call in every
iteration runs with no mask and `set_mask` cannot affect the result of
`fit`. -/
theorem claim_C10_set_mask_never_used (cfg : MDRCfg) (dat : ℕ → ℕ → ℚ)
    (hspatial : 2 ≤ ((cfg.array_shape.dropLast).filter fun a => 1 < a).length) :
    set_mask_shape cfg.array_shape ≠ cfg.array_shape ∧
    (∀ t, maskArg (some ⟨set_mask_shape cfg.array_shape, dat⟩) cfg.array_shape t = none) ∧
    MDR_fit { cfg with coreg_mask := some ⟨set_mask_shape cfg.array_shape, dat⟩ } =
      MDR_fit { cfg with coreg_mask := none } := by
  have hne := set_mask_shape_ne cfg.array_shape hspatial
  exact ⟨hne, maskArg_mismatch _ _ hne, MDR_fit_mask_mismatch cfg _ hne⟩

/-- C10 witness: the `set_mask` theorem on a (16,16,5) stack. -/
theorem claim_C10_set_mask_never_used_witness :
    2 ≤ ((cfgSmall10.array_shape.dropLast).filter fun a => 1 < a).length ∧
    (set_mask_shape cfgSmall10.array_shape ≠ cfgSmall10.array_shape ∧
      (∀ t, maskArg (some ⟨set_mask_shape cfgSmall10.array_shape, fun _ _ => 0⟩)
        cfgSmall10.array_shape t = none) ∧
      MDR_fit { cfgSmall10 with
          coreg_mask := some ⟨set_mask_shape cfgSmall10.array_shape, fun _ _ => 0⟩ } =
        MDR_fit { cfgSmall10 with coreg_mask := none }) :=
  ⟨by decide, claim_C10_set_mask_never_used cfgSmall10 (fun _ _ => 0) (by decide)⟩

/-- C9: the origin that `_coregister_elastix` assigns to the downsampled
images.  The claimed per-axis formula `(downsample - 1) * spacing_large / 2`
holds when both axes have the same spacing (last conjunct), but at the
anisotropic spacing `[1, 2]` with downsample 2 the code assigns the origin
`[0, 3/2]`, whose components agree with the claimed formula on neither axis —
the code crosses the two axes' spacings, contradicting its own derivation
comment `origin_small = (spacing_small - spacing_large)/2`. -/
theorem claim_C9_origin_eval :
    originSmall (1, 2) 2 = (0, 3 / 2) ∧
    originSmall (1, 2) 2 ≠ (((2 : ℚ) - 1) * 1 / 2, ((2 : ℚ) - 1) * 2 / 2) ∧
    originSmall (1, 2) 2 ≠ (((2 : ℚ) - 1) * 2 / 2, ((2 : ℚ) - 1) * 1 / 2) ∧
    originSmall (2, 2) 3 = (((3 : ℚ) - 1) * 2 / 2, ((3 : ℚ) - 1) * 2 / 2) := by
  norm_num [originSmall, spacingSmall, Prod.ext_iff]

/-- C7: on a 2-D stack of shape (16,16,5) with the constant signal model and
the identity registration stub, `fit` converges at iteration 1, the final
coregistered stack equals the input stack, the final deformation field is all
zero, and the iteration log is `[0]` — whatever the input stack and whatever
the arbitrary content of the `np.empty` allocation. -/
theorem claim_C7_end_to_end (arr : Stack) (junk : ℕ → DFrame) :
    ∃ out, MDR_fit (cfg7 arr junk) = some out ∧
      out.iterations = 1 ∧
      out.coreg = arr ∧
      (∀ p c t, t < 5 → out.deformation p c t = some 0) ∧
      out.improvements = [some 0] := by
  have hfr : ∀ (p c t : ℕ), t < 5 →
      (fit_deformation_seq idRegister arr (constant_main 5 arr).1 none [16, 16, 5]
        junk arr 5).2 t p c = some 0 := by
    intro p c t ht
    rw [fit_deformation_seq_snd, if_pos ht]
    rfl
  have himp : (mdrStep (cfg7 arr junk) (mdrInit (cfg7 arr junk))).2 = some 0 := by
    rw [mdrStep_snd]
    simp only [cfg7, mdrInit]
    refine (maxnorm_const _ 0 (by norm_num) (by norm_num) ?_).trans (by simp)
    intro p hp t ht
    norm_num [sumSq, nanSub, nanSq, nanAdd, hfr p 0 t ht, hfr p 1 t ht]
  have hconv : mdrConv (cfg7 arr junk).precision
      (mdrStep (cfg7 arr junk) (mdrInit (cfg7 arr junk))).2 = true := by
    rw [himp]
    show nanLe (some 0) (cfg7 arr junk).precision = true
    simp only [nanLe, cfg7, decide_eq_true_eq]
    norm_num
  have hloop := fitLoop_exit_first (mdrStep (cfg7 arr junk))
    (mdrConv (cfg7 arr junk).precision) (cfg7 arr junk).max_iterations
    (mdrInit (cfg7 arr junk)) (by norm_num [cfg7]) (by rw [hconv]; simp)
  have hfit : MDR_fit (cfg7 arr junk) = some
      ⟨(mdrStep (cfg7 arr junk) (mdrInit (cfg7 arr junk))).1.coreg,
       (mdrStep (cfg7 arr junk) (mdrInit (cfg7 arr junk))).1.deformation,
       ((cfg7 arr junk).signal (mdrStep (cfg7 arr junk) (mdrInit (cfg7 arr junk))).1.coreg).1,
       ((cfg7 arr junk).signal (mdrStep (cfg7 arr junk) (mdrInit (cfg7 arr junk))).1.coreg).2,
       [(mdrStep (cfg7 arr junk) (mdrInit (cfg7 arr junk))).2], 1⟩ := by
    unfold MDR_fit
    rw [hloop]
  refine ⟨_, hfit, rfl, ?_, ?_, by rw [himp]⟩
  · rw [mdrStep_coreg]
    simp only [cfg7, mdrInit]
    funext p t
    rw [fit_deformation_seq_fst]
    by_cases ht : t < 5
    · rw [if_pos ht]
      rfl
    · rw [if_neg ht]
  · intro p c t ht
    rw [mdrStep_deformation]
    simp only [cfg7, mdrInit]
    exact hfr p c t ht

/-- C7 witness: the end-to-end theorem applied to the all-zero stack and the
all-NaN allocation content. -/
theorem claim_C7_end_to_end_witness :
    ∃ out, MDR_fit (cfg7 zeroStack noneJunk) = some out ∧
      out.iterations = 1 ∧
      out.coreg = zeroStack ∧
      (∀ p c t, t < 5 → out.deformation p c t = some 0) ∧
      out.improvements = [some 0] :=
  claim_C7_end_to_end zeroStack noneJunk

/-- C5 counterexample: when every per-frame elastix call raises (and is
silently swallowed), no time point of the freshly `np.empty`-allocated
deformation field is written, yet `fit` still computes the convergence
diagnostic from it: two runs that differ only in the arbitrary content of the
unwritten frames produce different improvement histories.  This refutes the
claim that a partially-populated deformation field never feeds the
convergence check. -/
theorem claim_C5_counterexample :
    (∀ mov fx mk, failRegister mov fx mk = none) ∧
    ∃ o₁ o₂, MDR_fit (cfgFail zeroJunk) = some o₁ ∧
      MDR_fit (cfgFail bigJunk) = some o₂ ∧
      o₁.improvements = [some 0] ∧ o₁.improvements ≠ o₂.improvements := by
  have hfrA : ∀ (p c t : ℕ), t < 1 →
      (fit_deformation_seq failRegister zeroStack (idSignal zeroStack).1 none [1, 1, 1]
        zeroJunk zeroStack 1).2 t p c = some 0 := by
    intro p c t ht
    rw [fit_deformation_seq_snd, if_pos ht]
    rfl
  have hfrB : ∀ (p c t : ℕ), t < 1 →
      (fit_deformation_seq failRegister zeroStack (idSignal zeroStack).1 none [1, 1, 1]
        bigJunk zeroStack 1).2 t p c = bigJunk t p c := by
    intro p c t ht
    rw [fit_deformation_seq_snd, if_pos ht]
    rfl
  have himpA : (mdrStep (cfgFail zeroJunk) (mdrInit (cfgFail zeroJunk))).2 = some 0 := by
    rw [mdrStep_snd]
    simp only [cfgFail, mdrInit]
    refine (maxnorm_const _ 0 (by norm_num) (by norm_num) ?_).trans (by simp)
    intro p hp t ht
    norm_num [sumSq, nanSub, nanSq, nanAdd, hfrA p 0 t ht, hfrA p 1 t ht]
  have himpB : (mdrStep (cfgFail bigJunk) (mdrInit (cfgFail bigJunk))).2 =
      some (Real.sqrt ((25 : ℚ) : ℝ)) := by
    rw [mdrStep_snd]
    simp only [cfgFail, mdrInit]
    refine maxnorm_const _ 25 (by norm_num) (by norm_num) ?_
    intro p hp t ht
    norm_num [sumSq, nanSub, nanSq, nanAdd, hfrB p 0 t ht, hfrB p 1 t ht, bigJunk]
  have hloopA := fitLoop_exit_first (mdrStep (cfgFail zeroJunk))
    (mdrConv (cfgFail zeroJunk).precision) (cfgFail zeroJunk).max_iterations
    (mdrInit (cfgFail zeroJunk)) (by norm_num [cfgFail]) (by simp [cfgFail])
  have hloopB := fitLoop_exit_first (mdrStep (cfgFail bigJunk))
    (mdrConv (cfgFail bigJunk).precision) (cfgFail bigJunk).max_iterations
    (mdrInit (cfgFail bigJunk)) (by norm_num [cfgFail]) (by simp [cfgFail])
  have hfitA : MDR_fit (cfgFail zeroJunk) = some
      ⟨(mdrStep (cfgFail zeroJunk) (mdrInit (cfgFail zeroJunk))).1.coreg,
       (mdrStep (cfgFail zeroJunk) (mdrInit (cfgFail zeroJunk))).1.deformation,
       ((cfgFail zeroJunk).signal
         (mdrStep (cfgFail zeroJunk) (mdrInit (cfgFail zeroJunk))).1.coreg).1,
       ((cfgFail zeroJunk).signal
         (mdrStep (cfgFail zeroJunk) (mdrInit (cfgFail zeroJunk))).1.coreg).2,
       [(mdrStep (cfgFail zeroJunk) (mdrInit (cfgFail zeroJunk))).2], 1⟩ := by
    unfold MDR_fit
    rw [hloopA]
  have hfitB : MDR_fit (cfgFail bigJunk) = some
      ⟨(mdrStep (cfgFail bigJunk) (mdrInit (cfgFail bigJunk))).1.coreg,
       (mdrStep (cfgFail bigJunk) (mdrInit (cfgFail bigJunk))).1.deformation,
       ((cfgFail bigJunk).signal
         (mdrStep (cfgFail bigJunk) (mdrInit (cfgFail bigJunk))).1.coreg).1,
       ((cfgFail bigJunk).signal
         (mdrStep (cfgFail bigJunk) (mdrInit (cfgFail bigJunk))).1.coreg).2,
       [(mdrStep (cfgFail bigJunk) (mdrInit (cfgFail bigJunk))).2], 1⟩ := by
    unfold MDR_fit
    rw [hloopB]
  refine ⟨fun _ _ _ => rfl, _, _, hfitA, hfitB, by rw [himpA], ?_⟩
  show [(mdrStep (cfgFail zeroJunk) (mdrInit (cfgFail zeroJunk))).2] ≠
    [(mdrStep (cfgFail bigJunk) (mdrInit (cfgFail bigJunk))).2]
  rw [himpA, himpB]
  intro h
  have h25 : (0 : ℝ) < Real.sqrt ((25 : ℚ) : ℝ) := Real.sqrt_pos.mpr (by norm_num)
  simp only [List.cons.injEq, and_true, Option.some_inj] at h
  rw [← h] at h25
  exact lt_irrefl _ h25

/-- C5 amended: in every iteration of `fit`, as long as every per-frame
registration call succeeds, the deformation field that feeds the convergence
check is fully populated — every real time point has been written by that
iteration's registration call — so the improvement history, the iteration
count, the coregistered stack and the real deformation entries are
independent of the arbitrary content of the `np.empty` allocation.  (By the
counterexample, this fails as soon as a sequential elastix per-frame failure
is silently swallowed.) -/
theorem claim_C5_amended_full_population (cfg : MDRCfg) (j₁ j₂ : ℕ → DFrame)
    (hmax : 0 < cfg.max_iterations)
    (htotal : ∀ mov fx mk, (cfg.register mov fx mk).isSome = true) :
    ∃ o₁ o₂, MDR_fit { cfg with junk := j₁ } = some o₁ ∧
      MDR_fit { cfg with junk := j₂ } = some o₂ ∧
      o₁.improvements = o₂.improvements ∧
      o₁.iterations = o₂.iterations ∧
      o₁.coreg = o₂.coreg ∧
      (∀ p c t, t < cfg.T → o₁.deformation p c t = o₂.deformation p c t) := by
  have hstep : ∀ s₁ s₂, deformEqBelow cfg.T s₁ s₂ →
      deformEqBelow cfg.T (mdrStep { cfg with junk := j₁ } s₁).1
        (mdrStep { cfg with junk := j₂ } s₂).1 ∧
      (mdrStep { cfg with junk := j₁ } s₁).2 = (mdrStep { cfg with junk := j₂ } s₂).2 := by
    intro s₁ s₂ hRs
    obtain ⟨hcor, hfitm, hpars, hdef⟩ := hRs
    have hsig : cfg.signal s₁.coreg = cfg.signal s₂.coreg := by rw [hcor]
    have hrc : ∀ t, regCall cfg.register cfg.arr (cfg.signal s₁.coreg).1 cfg.coreg_mask
        cfg.array_shape t = regCall cfg.register cfg.arr (cfg.signal s₂.coreg).1
        cfg.coreg_mask cfg.array_shape t := by
      intro t
      rw [hsig]
    have hFDfst :
        (fit_deformation_seq cfg.register cfg.arr (cfg.signal s₁.coreg).1 cfg.coreg_mask
          cfg.array_shape j₁ s₁.coreg cfg.T).1 =
        (fit_deformation_seq cfg.register cfg.arr (cfg.signal s₂.coreg).1 cfg.coreg_mask
          cfg.array_shape j₂ s₂.coreg cfg.T).1 := by
      funext p t
      rw [fit_deformation_seq_fst, fit_deformation_seq_fst, hrc t, hcor]
    have hFDsnd : ∀ t, t < cfg.T →
        (fit_deformation_seq cfg.register cfg.arr (cfg.signal s₁.coreg).1 cfg.coreg_mask
          cfg.array_shape j₁ s₁.coreg cfg.T).2 t =
        (fit_deformation_seq cfg.register cfg.arr (cfg.signal s₂.coreg).1 cfg.coreg_mask
          cfg.array_shape j₂ s₂.coreg cfg.T).2 t := by
      intro t ht
      have hs : (regCall cfg.register cfg.arr (cfg.signal s₂.coreg).1 cfg.coreg_mask
          cfg.array_shape t).isSome = true := htotal _ _ _
      rcases Option.isSome_iff_exists.mp hs with ⟨r, hr⟩
      rw [fit_deformation_seq_snd, fit_deformation_seq_snd, if_pos ht, if_pos ht, hrc t, hr]
    constructor
    · refine ⟨?_, ?_, ?_, ?_⟩
      · show (fit_deformation_seq cfg.register cfg.arr (cfg.signal s₁.coreg).1 cfg.coreg_mask
            cfg.array_shape j₁ s₁.coreg cfg.T).1 =
          (fit_deformation_seq cfg.register cfg.arr (cfg.signal s₂.coreg).1 cfg.coreg_mask
            cfg.array_shape j₂ s₂.coreg cfg.T).1
        exact hFDfst
      · show (cfg.signal s₁.coreg).1 = (cfg.signal s₂.coreg).1
        rw [hsig]
      · show (cfg.signal s₁.coreg).2 = (cfg.signal s₂.coreg).2
        rw [hsig]
      · intro p c t ht
        show (fit_deformation_seq cfg.register cfg.arr (cfg.signal s₁.coreg).1 cfg.coreg_mask
            cfg.array_shape j₁ s₁.coreg cfg.T).2 t p c =
          (fit_deformation_seq cfg.register cfg.arr (cfg.signal s₂.coreg).1 cfg.coreg_mask
            cfg.array_shape j₂ s₂.coreg cfg.T).2 t p c
        rw [hFDsnd t ht]
    · show _maxnorm ⟨cfg.P, cfg.N, cfg.T, fun p c t => nanSub (s₁.deformation p c t)
          ((fit_deformation_seq cfg.register cfg.arr (cfg.signal s₁.coreg).1 cfg.coreg_mask
            cfg.array_shape j₁ s₁.coreg cfg.T).2 t p c)⟩ =
        _maxnorm ⟨cfg.P, cfg.N, cfg.T, fun p c t => nanSub (s₂.deformation p c t)
          ((fit_deformation_seq cfg.register cfg.arr (cfg.signal s₂.coreg).1 cfg.coreg_mask
            cfg.array_shape j₂ s₂.coreg cfg.T).2 t p c)⟩
      refine maxnorm_congr _ _ rfl rfl ?_
      intro p hp t ht
      have hent : ∀ c, nanSub (s₁.deformation p c t)
          ((fit_deformation_seq cfg.register cfg.arr (cfg.signal s₁.coreg).1 cfg.coreg_mask
            cfg.array_shape j₁ s₁.coreg cfg.T).2 t p c) =
          nanSub (s₂.deformation p c t)
          ((fit_deformation_seq cfg.register cfg.arr (cfg.signal s₂.coreg).1 cfg.coreg_mask
            cfg.array_shape j₂ s₂.coreg cfg.T).2 t p c) := by
        intro c
        rw [hdef p c t ht, hFDsnd t ht]
      by_cases h3 : cfg.N = 3 <;> simp [sumSq, h3, hent]
  have hinit : deformEqBelow cfg.T (mdrInit { cfg with junk := j₁ })
      (mdrInit { cfg with junk := j₂ }) := ⟨rfl, rfl, rfl, fun _ _ _ _ => rfl⟩
  rcases fitLoop_run (mdrStep { cfg with junk := j₁ })
      (mdrConv ({ cfg with junk := j₁ } : MDRCfg).precision)
      ({ cfg with junk := j₁ } : MDRCfg).max_iterations
      (mdrInit { cfg with junk := j₁ }) hmax with ⟨lo₁, _m, _v, heqA, _, _, _, _, _, _⟩
  have hrel := fitLoopAux_rel (deformEqBelow cfg.T) (mdrStep { cfg with junk := j₁ })
      (mdrStep { cfg with junk := j₂ })
      (mdrConv ({ cfg with junk := j₁ } : MDRCfg).precision)
      ({ cfg with junk := j₁ } : MDRCfg).max_iterations hstep
      ({ cfg with junk := j₁ } : MDRCfg).max_iterations 1
      (mdrInit { cfg with junk := j₁ }) (mdrInit { cfg with junk := j₂ }) [] hinit
  rcases hrel with ⟨hn, _⟩ | ⟨o₁, o₂, h1, h2, h3, h4, h5⟩
  · have hnone : fitLoop (mdrStep { cfg with junk := j₁ })
        (mdrConv ({ cfg with junk := j₁ } : MDRCfg).precision)
        ({ cfg with junk := j₁ } : MDRCfg).max_iterations
        (mdrInit { cfg with junk := j₁ }) = none := hn
    rw [heqA] at hnone
    cases hnone
  · obtain ⟨hc3, hm3, hp3, hd3⟩ := h3
    refine ⟨⟨o₁.state.coreg, o₁.state.deformation,
        (cfg.signal o₁.state.coreg).1, (cfg.signal o₁.state.coreg).2,
        o₁.improvements, o₁.iterations⟩,
      ⟨o₂.state.coreg, o₂.state.deformation,
        (cfg.signal o₂.state.coreg).1, (cfg.signal o₂.state.coreg).2,
        o₂.improvements, o₂.iterations⟩, ?_, ?_, h4, h5, hc3, hd3⟩
    · unfold MDR_fit
      rw [show fitLoop (mdrStep { cfg with junk := j₁ })
          (mdrConv ({ cfg with junk := j₁ } : MDRCfg).precision)
          ({ cfg with junk := j₁ } : MDRCfg).max_iterations
          (mdrInit { cfg with junk := j₁ }) = some o₁ from h1]
    · unfold MDR_fit
      rw [show fitLoop (mdrStep { cfg with junk := j₂ })
          (mdrConv ({ cfg with junk := j₂ } : MDRCfg).precision)
          ({ cfg with junk := j₂ } : MDRCfg).max_iterations
          (mdrInit { cfg with junk := j₂ }) = some o₂ from h2]

/-- C5 amended witness: the full-population theorem applied to a concrete
total-backend configuration with two different allocation contents. -/
theorem claim_C5_amended_full_population_witness :
    0 < cfgSmall5.max_iterations ∧
    (∀ mov fx mk, (cfgSmall5.register mov fx mk).isSome = true) ∧
    (∃ o₁ o₂, MDR_fit { cfgSmall5 with junk := zeroJunk } = some o₁ ∧
      MDR_fit { cfgSmall5 with junk := bigJunk } = some o₂ ∧
      o₁.improvements = o₂.improvements ∧ o₁.iterations = o₂.iterations ∧
      o₁.coreg = o₂.coreg ∧
      (∀ p c t, t < cfgSmall5.T → o₁.deformation p c t = o₂.deformation p c t)) :=
  ⟨by decide, fun _ _ _ => rfl,
    claim_C5_amended_full_population cfgSmall5 zeroJunk bigJunk (by decide)
      (fun _ _ _ => rfl)⟩
